import Mathlib

/-!
Verification of `cmd/unfinished_goroutines/unfinished_goroutines.go`.

The Go program reconstructs per-goroutine lifecycle records from a list of
runtime trace events (`events2gs`), filters the goroutines with no recorded
termination (`unfinishedGs`), and groups them by an md5 fingerprint of
(name, lastState, rendered lastStack), sorted by descending group size
(`uniq`, `byLen`).

Shallow embedding notes:
* `uint64` identifiers carry no arithmetic here, so they are modelled as `Nat`;
  `int64` timestamps are modelled as `Int` (only compared against zero).
* A Go map `map[uint64]*Goroutine` is modelled as an association list with
  unique keys; map assignment replaces the binding in place, and mutation
  through a pointer is modelled by updating the binding.
* The nil-pointer dereference in the `EvGoEnd` branch (lookup of a goroutine
  that was never created yields a nil pointer which is then written through)
  is modelled by `Option`: `pass1`/`events2gs` return `none` exactly when the
  Go program panics.
* `ev.Args` is a fixed `[3]uint64` array in Go whose unset entries are zero,
  so `ev.Args[0]` is modelled as `args.headD 0`.
* The md5 digest in `uniq` is a deterministic function of the concatenated
  string `name ++ lastState ++ lastStack.String()`; it is modelled as that
  concatenation itself (equal inputs give equal digests; distinct inputs are
  assumed collision-free, as the spec's §4.3/§9 allow).
-/

/-- Model of `trace.Frame`: a resolved stack frame (the `PC` field is never read by
this program and is omitted). -/
structure Frame where
  fn : String
  file : String
  line : Int
deriving DecidableEq

/-- Model of `trace.Event`: a parsed trace event.  `link` models the `Link *Event`
pointer (`none` = nil).  Only the fields this program reads are included. -/
inductive Event : Type where
  | mk : (type : Nat) → (g : Nat) → (ts : Int) → (args : List Nat) →
      (stk : List Frame) → (link : Option Event) → Event

def Event.type : Event → Nat
  | .mk t _ _ _ _ _ => t

def Event.g : Event → Nat
  | .mk _ g _ _ _ _ => g

def Event.ts : Event → Int
  | .mk _ _ ts _ _ _ => ts

def Event.args : Event → List Nat
  | .mk _ _ _ a _ _ => a

def Event.stk : Event → List Frame
  | .mk _ _ _ _ s _ => s

def Event.link : Event → Option Event
  | .mk _ _ _ _ _ l => l

/-- Constant `trace.EvGoCreate` (internal/trace; see the `states` table). -/
def EvGoCreate : Nat := 13

/-- Constant `trace.EvGoEnd` (internal/trace; see the `states` table). -/
def EvGoEnd : Nat := 15

/-- The `states` table of the source, a fixed `map[byte]string`.  A missing
key yields the zero value `""`, as for every Go map read. -/
def states (t : Nat) : String :=
  match t with
  | 0 => "EvNone"
  | 1 => "EvBatch"
  | 2 => "EvFrequency"
  | 3 => "EvStack"
  | 4 => "EvGomaxprocs"
  | 5 => "EvProcStart"
  | 6 => "EvProcStop"
  | 7 => "EvGCStart"
  | 8 => "EvGCDone"
  | 9 => "EvGCScanStart"
  | 10 => "EvGCScanDone"
  | 11 => "EvGCSweepStart"
  | 12 => "EvGCSweepDone"
  | 13 => "EvGoCreate"
  | 14 => "EvGoStart"
  | 15 => "EvGoEnd"
  | 16 => "EvGoStop"
  | 17 => "EvGoSched"
  | 18 => "EvGoPreempt"
  | 19 => "EvGoSleep"
  | 20 => "EvGoBlock"
  | 21 => "EvGoUnblock"
  | 22 => "EvGoBlockSend"
  | 23 => "EvGoBlockRecv"
  | 24 => "EvGoBlockSelect"
  | 25 => "EvGoBlockSync"
  | 26 => "EvGoBlockCond"
  | 27 => "EvGoBlockNet"
  | 28 => "EvGoSysCall"
  | 29 => "EvGoSysExit"
  | 30 => "EvGoSysBlock"
  | 31 => "EvGoWaiting"
  | 32 => "EvGoInSyscall"
  | 33 => "EvHeapAlloc"
  | 34 => "EvNextGC"
  | 35 => "EvTimerGoroutine"
  | 36 => "EvFutileWakeup"
  | 37 => "EvCount"
  | _ => ""

/-- The `Goroutine` struct of the source, field for field. -/
structure Goroutine where
  ID : Nat
  ParentID : Nat
  parentStack : List Frame
  name : String
  create : Int
  destroy : Int
  lastStack : List Frame
  lastState : String
deriving DecidableEq

/-- The `map[uint64]*Goroutine` of the source, as an association list with
unique keys. -/
abbrev GMap := List (Nat × Goroutine)

/-- Go map read `goroutines[id]` (second return value `found` is
`(lookupG m id).isSome`). -/
def lookupG : GMap → Nat → Option Goroutine
  | [], _ => none
  | (k, g) :: t, id => if k = id then some g else lookupG t id

/-- Go map assignment `goroutines[id] = g`: replace the binding in place, or
add it. -/
def insertG : GMap → Nat → Goroutine → GMap
  | [], id, g => [(id, g)]
  | (k, g0) :: t, id, g => if k = id then (id, g) :: t else (k, g0) :: insertG t id g

/-- Mutation through the pointer stored at key `id` (no-op if absent). -/
def updateG : GMap → Nat → (Goroutine → Goroutine) → GMap
  | [], _, _ => []
  | (k, g) :: t, id, f => if k = id then (k, f g) :: t else (k, g) :: updateG t id f

/-- Model of `&Goroutine{ID: ev.Args[0], create: ev.Ts}`: composite literal with Go
zero values for the remaining fields. -/
def freshG (id : Nat) (ts : Int) : Goroutine :=
  { ID := id, ParentID := 0, parentStack := [], name := "", create := ts,
    destroy := 0, lastStack := [], lastState := "" }

/-- Value of `ev.Stk[0].Fn` when the stack is non-empty (`""` otherwise; only used
under the non-emptiness test of the source). -/
def headFn (e : Event) : String :=
  match e.stk with
  | [] => ""
  | f :: _ => f.fn

/-- The per-event update of the owning goroutine in the first loop of
`events2gs`: set `lastState` and `lastStack`, and set `name` from the
innermost frame if the stack is non-empty and `name` is still unset. -/
def ownerF (ev : Event) (g : Goroutine) : Goroutine :=
  { g with lastState := states ev.type, lastStack := ev.stk,
           name := if ev.stk ≠ [] ∧ g.name = "" then headFn ev else g.name }

/-- Model of `g, found := goroutines[ev.G]; if !found { continue }; ...`, the tail of
the first loop body of `events2gs`. -/
def applyOwner (m : GMap) (ev : Event) : GMap :=
  match lookupG m ev.g with
  | none => m
  | some _ => updateG m ev.g (ownerF ev)

/-- The `switch ev.Type` at the head of the first loop body of `events2gs`.
`EvGoCreate` inserts a fresh record keyed by `ev.Args[0]`; `EvGoEnd` writes
`destroy` through `goroutines[ev.G]`, which in Go dereferences a nil pointer
(modelled as `none`) when that goroutine was never created. -/
def kindStep (m : GMap) (ev : Event) : Option GMap :=
  if ev.type = EvGoCreate then
    some (insertG m (ev.args.headD 0) (freshG (ev.args.headD 0) ev.ts))
  else if ev.type = EvGoEnd then
    match lookupG m ev.g with
    | none => none
    | some _ => some (updateG m ev.g (fun g => { g with destroy := ev.ts }))
  else
    some m

/-- One iteration of the first loop of `events2gs`. -/
def step1 (m : GMap) (ev : Event) : Option GMap :=
  match kindStep m ev with
  | none => none
  | some m1 => some (applyOwner m1 ev)

/-- The first loop of `events2gs` over the whole event list. -/
def pass1 : GMap → List Event → Option GMap
  | m, [] => some m
  | m, ev :: evs =>
    match step1 m ev with
    | none => none
    | some m1 => pass1 m1 evs

/-- One iteration of the second (parent-linkage) loop of `events2gs`. -/
def step2 (m : GMap) (ev : Event) : GMap :=
  if ev.type = EvGoCreate then
    match ev.link with
    | none => m
    | some l =>
      match lookupG m l.g with
      | none => m
      | some _ => updateG m l.g (fun child => { child with ParentID := ev.g, parentStack := ev.stk })
  else
    m

/-- The second loop of `events2gs`. -/
def pass2 : GMap → List Event → GMap
  | m, [] => m
  | m, ev :: evs => pass2 (step2 m ev) evs

/-- Model of `events2gs`: both passes; `none` models the nil-pointer panic of the
first pass. -/
def events2gs (events : List Event) : Option GMap :=
  match pass1 [] events with
  | none => none
  | some m => some (pass2 m events)

/-- Model of `unfinishedGs`: keep the entries whose `destroy` is still zero. -/
def unfinishedGs (gs : GMap) : GMap :=
  gs.filter (fun p => p.2.destroy == 0)

/-- Model of `Stack.String()` per frame: frames joined by newlines, each rendered
`Fn [File:Line]`. -/
def frameString (f : Frame) : String :=
  f.fn ++ " [" ++ f.file ++ ":" ++ toString f.line ++ "]"

/-- Model of `Stack.String()` over the whole stack. -/
def stackString : List Frame → String
  | [] => ""
  | f :: t => t.foldl (fun acc fr => acc ++ "\n" ++ frameString fr) (frameString f)

/-- The `hash` closure of `uniq`: the md5 digest of
`g.name ++ g.lastState ++ g.lastStack.String()`, modelled as the digest
input itself (md5 is a deterministic function of it). -/
def gHash (g : Goroutine) : String :=
  g.name ++ g.lastState ++ stackString g.lastStack

/-- One iteration of the grouping loop of `uniq`: append `g` to the group
keyed by its hash, creating the group if absent. -/
def addG (g : Goroutine) : List (String × List Goroutine) → List (String × List Goroutine)
  | [] => [(gHash g, [g])]
  | (k, l) :: t => if k = gHash g then (k, l ++ [g]) :: t else (k, l) :: addG g t

/-- The grouping loop of `uniq` over the map's values. -/
def groupsFold : List Goroutine → List (String × List Goroutine) → List (String × List Goroutine)
  | [], acc => acc
  | g :: t, acc => groupsFold t (addG g acc)

/-- Insert a group into a list kept sorted by descending length. -/
def insertByLen (g : List Goroutine) : List (List Goroutine) → List (List Goroutine)
  | [] => [g]
  | h :: t => if h.length < g.length then g :: h :: t else h :: insertByLen g t

/-- Model of `sort.Sort(byLen(groupsList))`: a permutation of the input sorted by the
`byLen.Less` order `len(b[i]) > len(b[j])` (descending length; `sort.Sort`
guarantees nothing beyond sortedness, modelled by insertion sort). -/
def sortByLen : List (List Goroutine) → List (List Goroutine)
  | [] => []
  | x :: t => insertByLen x (sortByLen t)

/-- The values of the map, in iteration order. -/
def gVals (gs : GMap) : List Goroutine :=
  gs.map (fun p => p.2)

/-- Model of `uniq`: group the goroutines by fingerprint, collect the groups, sort by
descending size. -/
def uniq (gs : GMap) : List (List Goroutine) :=
  sortByLen ((groupsFold (gVals gs) []).map (fun p => p.2))

/-! Specification-side derived notions, used to state the claims. -/

/-- The identifiers carried in `Args[0]` of the `EvGoCreate` events, in
order: the identifiers for which a record is allocated. -/
def createdIds (es : List Event) : List Nat :=
  (es.filter (fun e => e.type == EvGoCreate)).map (fun e => e.args.headD 0)

/-- Whether `e` is a creation event allocating the record of `id`. -/
def isCreateOf (id : Nat) (e : Event) : Bool :=
  e.type == EvGoCreate && e.args.headD 0 == id

/-- Given the events newest-first, the events owned by `id` at or after the
last creation event for `id` (newest first).  A creation event for `id`
resets the record, so the scan stops there; the creation event itself counts
only when `id` owns it. -/
def relevantRev (id : Nat) : List Event → List Event
  | [] => []
  | e :: r =>
    if isCreateOf id e then (if e.g == id then [e] else [])
    else if e.g == id then e :: relevantRev id r else relevantRev id r

/-- The display name recorded by the newest relevant event (empty if none). -/
def relState : List Event → String
  | [] => ""
  | e :: _ => states e.type

/-- The stack recorded by the newest relevant event (empty if none). -/
def relStack : List Event → List Frame
  | [] => []
  | e :: _ => e.stk

/-- An event whose stack is non-empty and whose innermost frame carries a
non-empty function name: exactly the events whose processing changes an
unset `name`. -/
def goodStk (e : Event) : Bool :=
  !e.stk.isEmpty && headFn e != ""

/-- The name recorded for a goroutine, given its relevant events newest
first: the innermost function name of the chronologically first relevant
event with a non-empty stack and a non-empty innermost function name. -/
def relName (rel : List Event) : String :=
  match rel.reverse.filter goodStk with
  | [] => ""
  | e :: _ => headFn e

/-- The `destroy` timestamp, given the relevant events newest first: the
timestamp of the newest relevant `EvGoEnd`, or `0` if there is none. -/
def relDestroy (rel : List Event) : Int :=
  match rel.filter (fun e => e.type == EvGoEnd) with
  | [] => 0
  | e :: _ => e.ts

/-- Whether `e` is a creation event whose link points at an event owned by
`id` (the linkage test of the second pass). -/
def linksTo (id : Nat) (e : Event) : Bool :=
  e.type == EvGoCreate &&
    match e.link with
    | some l => l.g == id
    | none => false

/-- The chronologically last creation event linking to `id`, if any. -/
def lastLinkTo (es : List Event) (id : Nat) : Option Event :=
  match (es.filter (linksTo id)).reverse with
  | [] => none
  | e :: _ => some e

/-- The parent-linkage write of the second pass. -/
def setParent (e : Event) (g : Goroutine) : Goroutine :=
  { g with ParentID := e.g, parentStack := e.stk }

/-- Modelled from the spec's words for claim C8 ("derived from the innermost
frame of the first event stack observed for this goroutine that has a
non-empty stack"): the innermost function name of the first event in the
input owned by `id` whose stack is non-empty. -/
def specFirstNonemptyStackName (es : List Event) (id : Nat) : String :=
  match es.filter (fun e => e.g == id && !e.stk.isEmpty) with
  | [] => ""
  | e :: _ => headFn e

/-- The invariant of the first pass: every record present in the map after
processing `es` belongs to a created identifier, and its mutable fields are
exactly determined by the events owned by that identifier at or after its
last creation event. -/
def StateInv (es : List Event) (m : GMap) : Prop :=
  ∀ id g, lookupG m id = some g →
    g.ID = id ∧ id ∈ createdIds es ∧
    g.lastState = relState (relevantRev id es.reverse) ∧
    g.lastStack = relStack (relevantRev id es.reverse) ∧
    g.name = relName (relevantRev id es.reverse) ∧
    g.destroy = relDestroy (relevantRev id es.reverse)

/-! Concrete inputs used by the counterexamples and witnesses below. -/

/-- A termination event owned by goroutine 99, which is never created. -/
def c1end : Event := Event.mk 15 99 7 [] [] none

/-- Creation of goroutine 1 at timestamp 0. -/
def c2e1 : Event := Event.mk 13 0 0 [1] [] none

/-- Termination of goroutine 1 at timestamp 0. -/
def c2e2 : Event := Event.mk 15 1 0 [] [] none

def c2es : List Event := [c2e1, c2e2]

def c2g : Goroutine :=
  { ID := 1, ParentID := 0, parentStack := [], name := "", create := 0,
    destroy := 0, lastStack := [], lastState := "EvGoEnd" }

def c2m : GMap := [(1, c2g)]

def c2wes : List Event := [Event.mk 13 0 1 [1] [] none]

def c2wm : GMap := [(1, freshG 1 1)]

/-- An event owned by goroutine 7, which is never created. -/
def c3ev : Event := Event.mk 14 7 0 [] [] none

def c3es : List Event := [c3ev]

def fMain : Frame := { fn := "main.worker", file := "main.go", line := 10 }

def c3wes : List Event := [Event.mk 13 0 0 [1] [] none, Event.mk 14 1 1 [] [fMain] none]

def c3wg : Goroutine :=
  { ID := 1, ParentID := 0, parentStack := [], name := "main.worker", create := 0,
    destroy := 0, lastStack := [fMain], lastState := "EvGoStart" }

def c3wm : GMap := [(1, c3wg)]

/-- Name "ab" with state "c": the digest input is "abc". -/
def c4a : Goroutine :=
  { ID := 1, ParentID := 0, parentStack := [], name := "ab", create := 0,
    destroy := 0, lastStack := [], lastState := "c" }

/-- Name "a" with state "bc": the digest input is also "abc". -/
def c4b : Goroutine :=
  { ID := 2, ParentID := 0, parentStack := [], name := "a", create := 0,
    destroy := 0, lastStack := [], lastState := "bc" }

def c4gs : GMap := [(1, c4a), (2, c4b)]

/-- The linked event of the creation events below: owned by goroutine 1. -/
def c5link : Event := Event.mk 14 1 0 [] [] none

def c5e1 : Event := Event.mk 13 0 0 [1] [] none

/-- Creation event owned by goroutine 2, linking to goroutine 1. -/
def c5e2 : Event := Event.mk 13 2 1 [5] [] (some c5link)

/-- Creation event owned by goroutine 3, also linking to goroutine 1. -/
def c5e3 : Event := Event.mk 13 3 2 [6] [] (some c5link)

def c5es : List Event := [c5e1, c5e2, c5e3]

def c5c : Goroutine :=
  { ID := 1, ParentID := 3, parentStack := [], name := "", create := 0,
    destroy := 0, lastStack := [], lastState := "" }

def c5m : GMap := [(1, c5c), (5, freshG 5 1), (6, freshG 6 2)]

def c5wes : List Event := [c5e1, c5e2]

def c5wc : Goroutine :=
  { ID := 1, ParentID := 2, parentStack := [], name := "", create := 0,
    destroy := 0, lastStack := [], lastState := "" }

def c5wm : GMap := [(1, c5wc), (5, freshG 5 1)]

def c6a : Goroutine :=
  { ID := 1, ParentID := 0, parentStack := [], name := "x", create := 0,
    destroy := 0, lastStack := [], lastState := "" }

def c6b : Goroutine :=
  { ID := 2, ParentID := 0, parentStack := [], name := "y", create := 0,
    destroy := 0, lastStack := [], lastState := "" }

def c6b2 : Goroutine :=
  { ID := 3, ParentID := 0, parentStack := [], name := "y", create := 0,
    destroy := 0, lastStack := [], lastState := "" }

def c6gs : GMap := [(1, c6a), (2, c6b), (3, c6b2)]

def fF : Frame := { fn := "f", file := "x.go", line := 1 }

/-- An event with a non-empty stack owned by goroutine 1 before its creation. -/
def c8e1 : Event := Event.mk 14 1 0 [] [fF] none

def c8e2 : Event := Event.mk 13 0 1 [1] [] none

def c8es : List Event := [c8e1, c8e2]

def c8m : GMap := [(1, freshG 1 1)]

def c8wes : List Event := [Event.mk 13 0 0 [2] [] none, Event.mk 20 2 1 [] [fF] none]

def c8wg : Goroutine :=
  { ID := 2, ParentID := 0, parentStack := [], name := "f", create := 0,
    destroy := 0, lastStack := [fF], lastState := "EvGoBlock" }

def c8wm : GMap := [(2, c8wg)]

def c9g : Goroutine :=
  { ID := 1, ParentID := 0, parentStack := [], name := "w", create := 0,
    destroy := 0, lastStack := [], lastState := "s" }

def c9gs : GMap := [(1, c9g)]

/-- Two goroutines created by goroutine 0 that never own any event. -/
def c10es : List Event := [Event.mk 13 0 0 [1] [] none, Event.mk 13 0 1 [2] [] none]

def c10m : GMap := [(1, freshG 1 0), (2, freshG 2 1)]

/-! Claim theorems start here, interleaved with the helper lemmas they
need. -/

/-- Claim C1 (code bug): the reconstruction pass does NOT treat a
termination event for a never-created goroutine as a no-op: evaluating the
code on a single such event reaches the nil-pointer write `g.destroy = ev.Ts`
(modelled by `none`), i.e. the program panics where the spec requires a
skip. -/
theorem events2gs_unknown_end_crash : events2gs [c1end] = none := rfl

/-- Claim C7: on the empty event sequence the pipeline yields an empty
mapping, an empty unfinished set and an empty group list, with no error. -/
theorem empty_input_empty_output :
    events2gs [] = some [] ∧ unfinishedGs [] = [] ∧ uniq [] = [] :=
  ⟨rfl, rfl, rfl⟩

/-- Claim C2, counterexample: a termination event with timestamp 0 for
goroutine 1 occurs in the input, yet goroutine 1 is still in the unfinished
filter's output, because the code encodes "unfinished" as `destroy == 0` and
the termination wrote timestamp 0. -/
theorem unfinished_filter_cex :
    events2gs c2es = some c2m ∧ lookupG (unfinishedGs c2m) 1 = some c2g ∧
    c2e2 ∈ c2es ∧ c2e2.type = EvGoEnd ∧ c2e2.g = 1 :=
  ⟨rfl, rfl, by simp [c2es], rfl, rfl⟩

/-- Claim C3, counterexample: goroutine 7 owns the only event of the input,
yet the reconstructed mapping is empty — an owner with no creation event
never appears in the output mapping. -/
theorem reconstruction_owner_absent_cex :
    events2gs c3es = some [] ∧ (∃ e ∈ c3es, e.g = 7) ∧ lookupG [] 7 = none :=
  ⟨rfl, ⟨c3ev, by simp [c3es], rfl⟩, rfl⟩

/-- Claim C4, counterexample: the digest input concatenates name, state and
stack text with no separator, so the distinct triples ("ab", "c", "") and
("a", "bc", "") share a fingerprint and land in the same group. -/
theorem grouping_triple_cex :
    (∃ grp, grp ∈ uniq c4gs ∧ c4a ∈ grp ∧ c4b ∈ grp) ∧ c4a.name ≠ c4b.name := by
  refine ⟨⟨[c4a, c4b], ?_, ?_, ?_⟩, ?_⟩
  · have h : uniq c4gs = [[c4a, c4b]] := rfl
    rw [h]
    exact List.mem_singleton.mpr rfl
  · exact List.mem_cons_self _ _
  · exact List.mem_cons_of_mem _ (List.mem_cons_self _ _)
  · decide

/-- Claim C5, counterexample: two creation events link to goroutine 1, which
exists in the mapping; the reconstructed `ParentID` is the owner of the last
such event (3), not of the earlier one (2), so "for every creation event e
... c.parentID equals e's owner" fails at the earlier event. -/
theorem parent_linkage_cex :
    events2gs c5es = some c5m ∧ c5e2 ∈ c5es ∧ c5e2.type = EvGoCreate ∧
    (c5e2.link.map Event.g) = some 1 ∧ lookupG c5m 1 = some c5c ∧
    c5c.ParentID ≠ c5e2.g :=
  ⟨rfl, by simp [c5es], rfl, rfl, rfl, by decide⟩

/-- Claim C8, counterexample: goroutine 1 owns an event with stack
`[f]` before its creation event; the first non-empty stack observed for it in
the input has innermost function name "f", yet the reconstructed name is ""
because events preceding the creation are skipped. -/
theorem name_first_stack_cex :
    events2gs c8es = some c8m ∧ lookupG c8m 1 = some (freshG 1 1) ∧
    (freshG 1 1).name = "" ∧ specFirstNonemptyStackName c8es 1 = "f" ∧
    ("f" : String) ≠ "" :=
  ⟨rfl, rfl, rfl, rfl, by decide⟩

/-! Map-operation lemmas. -/

theorem lookupG_insertG (m : GMap) (k : Nat) (g : Goroutine) (id : Nat) :
    lookupG (insertG m k g) id = if k = id then some g else lookupG m id := by
  induction m with
  | nil => rfl
  | cons p t ih =>
    obtain ⟨k0, g0⟩ := p
    by_cases h1 : k0 = k
    · subst h1
      by_cases h2 : k0 = id
      · subst h2
        simp [insertG, lookupG]
      · simp [insertG, lookupG, h2]
    · by_cases h2 : k0 = id
      · subst h2
        have h3 : ¬ k = k0 := fun hh => h1 hh.symm
        simp [insertG, lookupG, h1, h3]
      · simp [insertG, lookupG, h1, h2, ih]

theorem lookupG_updateG (m : GMap) (k : Nat) (f : Goroutine → Goroutine) (id : Nat) :
    lookupG (updateG m k f) id = if k = id then (lookupG m k).map f else lookupG m id := by
  induction m with
  | nil => simp [updateG, lookupG]
  | cons p t ih =>
    obtain ⟨k0, g0⟩ := p
    by_cases h1 : k0 = k
    · subst h1
      by_cases h2 : k0 = id
      · subst h2
        simp [updateG, lookupG]
      · simp [updateG, lookupG, h2]
    · by_cases h2 : k0 = id
      · subst h2
        have h3 : ¬ k = k0 := fun hh => h1 hh.symm
        simp [updateG, lookupG, h1, h3]
      · simp [updateG, lookupG, h1, h2, ih]

theorem lookupG_applyOwner (m : GMap) (ev : Event) (id : Nat) :
    lookupG (applyOwner m ev) id =
      if ev.g = id then (lookupG m id).map (ownerF ev) else lookupG m id := by
  unfold applyOwner
  cases h : lookupG m ev.g with
  | none =>
    by_cases h2 : ev.g = id
    · subst h2
      simp [h]
    · simp [h2]
  | some g0 =>
    rw [lookupG_updateG]
    by_cases h2 : ev.g = id
    · subst h2
      simp
    · simp [h2]

theorem pass1_append (m : GMap) (es : List Event) (e : Event) :
    pass1 m (es ++ [e]) =
      match pass1 m es with
      | none => none
      | some m1 => step1 m1 e := by
  induction es generalizing m with
  | nil =>
    simp only [List.nil_append, pass1]
    cases step1 m e <;> rfl
  | cons x t ih =>
    simp only [List.cons_append, pass1]
    cases step1 m x with
    | none => rfl
    | some m1 => exact ih m1

theorem pass2_append (m : GMap) (es : List Event) (e : Event) :
    pass2 m (es ++ [e]) = step2 (pass2 m es) e := by
  induction es generalizing m with
  | nil => rfl
  | cons x t ih => exact ih (step2 m x)

theorem createdIds_append (es : List Event) (e : Event) :
    createdIds (es ++ [e]) =
      createdIds es ++ (if e.type = EvGoCreate then [e.args.headD 0] else []) := by
  unfold createdIds
  rw [List.filter_append]
  by_cases h : e.type = EvGoCreate
  · simp [h]
  · simp [h]

/-! Unfolding lemmas for the relevant-event scan. -/

theorem relevantRev_cons (id : Nat) (e : Event) (r : List Event) :
    relevantRev id (e :: r) =
      if isCreateOf id e then (if e.g == id then [e] else [])
      else if e.g == id then e :: relevantRev id r else relevantRev id r := rfl

theorem relevantRev_cons_create_self (id : Nat) (e : Event) (r : List Event)
    (hc : isCreateOf id e = true) (hg : e.g = id) :
    relevantRev id (e :: r) = [e] := by
  rw [relevantRev_cons]
  simp [hc, hg]

theorem relevantRev_cons_create_other (id : Nat) (e : Event) (r : List Event)
    (hc : isCreateOf id e = true) (hg : ¬ e.g = id) :
    relevantRev id (e :: r) = [] := by
  rw [relevantRev_cons]
  simp [hc, hg]

theorem relevantRev_cons_owned (id : Nat) (e : Event) (r : List Event)
    (hc : isCreateOf id e = false) (hg : e.g = id) :
    relevantRev id (e :: r) = e :: relevantRev id r := by
  rw [relevantRev_cons]
  simp [hc, hg]

theorem relevantRev_cons_skip (id : Nat) (e : Event) (r : List Event)
    (hc : isCreateOf id e = false) (hg : ¬ e.g = id) :
    relevantRev id (e :: r) = relevantRev id r := by
  rw [relevantRev_cons]
  simp [hc, hg]

theorem relName_cons (e : Event) (rel : List Event) :
    relName (e :: rel) =
      if relName rel = "" then (if goodStk e then headFn e else "") else relName rel := by
  unfold relName
  rw [List.reverse_cons, List.filter_append]
  cases hf : rel.reverse.filter goodStk with
  | nil =>
    simp only [List.nil_append]
    cases hgs : goodStk e
    · simp [List.filter, hgs]
    · simp [List.filter, hgs]
  | cons e0 t0 =>
    have hgood : goodStk e0 = true := by
      have hmem : e0 ∈ rel.reverse.filter goodStk := by
        rw [hf]
        exact List.mem_cons_self _ _
      exact (List.mem_filter.mp hmem).2
    have hne : headFn e0 ≠ "" := by
      have h2 := hgood
      simp [goodStk] at h2
      exact h2.2
    simp [hne]

theorem relDestroy_cons_end (e : Event) (rel : List Event) (h : e.type = EvGoEnd) :
    relDestroy (e :: rel) = e.ts := by
  unfold relDestroy
  rw [List.filter_cons]
  simp [h]

theorem relDestroy_cons_other (e : Event) (rel : List Event) (h : ¬ e.type = EvGoEnd) :
    relDestroy (e :: rel) = relDestroy rel := by
  unfold relDestroy
  rw [List.filter_cons]
  simp [h]

/-- Processing one event owned by a goroutine (`kindStep`'s `destroy` write
for `EvGoEnd`, then the common `ownerF` update) moves a record that matches
the relevant-event list `rel` to one matching `e :: rel`. -/
theorem matches_step (e : Event) (g : Goroutine) (rel : List Event)
    (_h1 : g.lastState = relState rel) (_h2 : g.lastStack = relStack rel)
    (h3 : g.name = relName rel) (h4 : g.destroy = relDestroy rel) :
    (ownerF e (if e.type = EvGoEnd then { g with destroy := e.ts } else g)).lastState
        = relState (e :: rel) ∧
    (ownerF e (if e.type = EvGoEnd then { g with destroy := e.ts } else g)).lastStack
        = relStack (e :: rel) ∧
    (ownerF e (if e.type = EvGoEnd then { g with destroy := e.ts } else g)).name
        = relName (e :: rel) ∧
    (ownerF e (if e.type = EvGoEnd then { g with destroy := e.ts } else g)).destroy
        = relDestroy (e :: rel) := by
  have hname : (if e.type = EvGoEnd then { g with destroy := e.ts } else g).name = g.name := by
    by_cases h : e.type = EvGoEnd <;> simp [h]
  have hdes : (if e.type = EvGoEnd then { g with destroy := e.ts } else g).destroy
      = if e.type = EvGoEnd then e.ts else g.destroy := by
    by_cases h : e.type = EvGoEnd <;> simp [h]
  refine ⟨rfl, rfl, ?_, ?_⟩
  · show (if e.stk ≠ [] ∧ (if e.type = EvGoEnd then { g with destroy := e.ts } else g).name = ""
        then headFn e else (if e.type = EvGoEnd then { g with destroy := e.ts } else g).name)
        = relName (e :: rel)
    rw [hname, relName_cons, ← h3]
    by_cases hg0 : g.name = ""
    · rw [if_pos hg0]
      by_cases hs : e.stk = []
      · have hgs : goodStk e = false := by
          simp [goodStk, hs]
        rw [if_neg (fun hand => hand.1 hs), if_neg (by simp [hgs] : ¬ goodStk e = true)]
        exact hg0
      · by_cases hh : headFn e = ""
        · have hgs : goodStk e = false := by
            simp [goodStk, hh]
          rw [if_pos ⟨hs, hg0⟩, if_neg (by simp [hgs] : ¬ goodStk e = true), hh]
        · have hgs : goodStk e = true := by
            simp [goodStk, hh, List.isEmpty_iff, hs]
          rw [if_pos ⟨hs, hg0⟩, if_pos hgs]
    · rw [if_neg hg0, if_neg (fun hand => hg0 hand.2)]
  · show (if e.type = EvGoEnd then { g with destroy := e.ts } else g).destroy
        = relDestroy (e :: rel)
    rw [hdes]
    by_cases he : e.type = EvGoEnd
    · rw [if_pos he, relDestroy_cons_end e rel he]
    · rw [if_neg he, relDestroy_cons_other e rel he, h4]

theorem isCreateOf_pos (id : Nat) (e : Event)
    (hc : e.type = EvGoCreate) (ha : e.args.headD 0 = id) : isCreateOf id e = true := by
  unfold isCreateOf
  rw [hc, ha]
  simp

theorem isCreateOf_args_ne (id : Nat) (e : Event)
    (ha : ¬ e.args.headD 0 = id) : isCreateOf id e = false := by
  unfold isCreateOf
  rw [beq_eq_false_iff_ne.mpr ha, Bool.and_false]

theorem isCreateOf_type_ne (id : Nat) (e : Event)
    (hc : ¬ e.type = EvGoCreate) : isCreateOf id e = false := by
  unfold isCreateOf
  rw [beq_eq_false_iff_ne.mpr hc, Bool.false_and]

/-- The first pass establishes `StateInv`: each record's mutable fields are
determined by the events its goroutine owns at or after its last creation. -/
theorem inv_main (es : List Event) : ∀ m, pass1 [] es = some m → StateInv es m := by
  induction es using List.reverseRecOn with
  | nil =>
    intro m hm
    have hm' : ([] : GMap) = m := by
      simpa [pass1] using hm
    subst hm'
    intro id g hg
    simp [lookupG] at hg
  | append_singleton es e ih =>
    intro m hm
    rw [pass1_append] at hm
    cases hp : pass1 [] es with
    | none =>
      rw [hp] at hm
      simp at hm
    | some m1 =>
      rw [hp] at hm
      have hstep : step1 m1 e = some m := hm
      have hinv := ih m1 hp
      unfold step1 at hstep
      cases hk : kindStep m1 e with
      | none =>
        rw [hk] at hstep
        simp at hstep
      | some m2 =>
        rw [hk] at hstep
        have hm' : applyOwner m2 e = m := by
          simpa using hstep
        subst hm'
        intro id g hg
        rw [lookupG_applyOwner] at hg
        have hrev : (es ++ [e]).reverse = e :: es.reverse := by
          simp
        rw [hrev]
        by_cases hc : e.type = EvGoCreate
        · -- creation event: `kindStep` inserted a fresh record at `Args[0]`
          have hne : ¬ e.type = EvGoEnd := by
            rw [hc]
            decide
          have hm2 : m2 = insertG m1 (e.args.headD 0) (freshG (e.args.headD 0) e.ts) := by
            unfold kindStep at hk
            rw [if_pos hc] at hk
            exact (Option.some.injEq _ _ ▸ hk).symm
          subst hm2
          by_cases hid : e.g = id
          · rw [if_pos hid, lookupG_insertG] at hg
            by_cases hai : e.args.headD 0 = id
            · -- self-created and self-owned: the record is `ownerF e fresh`
              rw [if_pos hai] at hg
              have hgv : ownerF e (freshG (e.args.headD 0) e.ts) = g := by
                injection hg
              have hcr : isCreateOf id e = true := isCreateOf_pos id e hc hai
              rw [relevantRev_cons_create_self id e es.reverse hcr hid]
              have hms := matches_step e (freshG (e.args.headD 0) e.ts) [] rfl rfl rfl rfl
              rw [if_neg hne] at hms
              refine ⟨?_, ?_, ?_, ?_, ?_, ?_⟩
              · rw [← hgv]
                exact hai
              · rw [createdIds_append, if_pos hc]
                exact List.mem_append_right _ (by rw [hai]; exact List.mem_singleton.mpr rfl)
              · rw [← hgv]; exact hms.1
              · rw [← hgv]; exact hms.2.1
              · rw [← hgv]; exact hms.2.2.1
              · rw [← hgv]; exact hms.2.2.2
            · -- owned by `id`, creating some other goroutine
              rw [if_neg hai] at hg
              cases hl : lookupG m1 id with
              | none =>
                rw [hl] at hg
                simp at hg
              | some gOld =>
                rw [hl] at hg
                have hgv : ownerF e gOld = g := by
                  injection hg
                obtain ⟨hID, hmem, hs1, hs2, hs3, hs4⟩ := hinv id gOld hl
                have hcr : isCreateOf id e = false := isCreateOf_args_ne id e hai
                rw [relevantRev_cons_owned id e es.reverse hcr hid]
                have hms := matches_step e gOld (relevantRev id es.reverse) hs1 hs2 hs3 hs4
                rw [if_neg hne] at hms
                refine ⟨?_, ?_, ?_, ?_, ?_, ?_⟩
                · rw [← hgv]
                  exact hID
                · rw [createdIds_append]
                  exact List.mem_append_left _ hmem
                · rw [← hgv]; exact hms.1
                · rw [← hgv]; exact hms.2.1
                · rw [← hgv]; exact hms.2.2.1
                · rw [← hgv]; exact hms.2.2.2
          · rw [if_neg hid, lookupG_insertG] at hg
            by_cases hai : e.args.headD 0 = id
            · -- created here but not owned: a fresh record
              rw [if_pos hai] at hg
              have hgv : freshG (e.args.headD 0) e.ts = g := by
                injection hg
              have hcr : isCreateOf id e = true := isCreateOf_pos id e hc hai
              rw [relevantRev_cons_create_other id e es.reverse hcr hid]
              refine ⟨?_, ?_, ?_, ?_, ?_, ?_⟩
              · rw [← hgv]
                exact hai
              · rw [createdIds_append, if_pos hc]
                exact List.mem_append_right _ (by rw [hai]; exact List.mem_singleton.mpr rfl)
              · rw [← hgv]; rfl
              · rw [← hgv]; rfl
              · rw [← hgv]; rfl
              · rw [← hgv]; rfl
            · -- untouched record
              rw [if_neg hai] at hg
              obtain ⟨hID, hmem, hs1, hs2, hs3, hs4⟩ := hinv id g hg
              have hcr : isCreateOf id e = false := isCreateOf_args_ne id e hai
              rw [relevantRev_cons_skip id e es.reverse hcr hid]
              refine ⟨hID, ?_, hs1, hs2, hs3, hs4⟩
              rw [createdIds_append]
              exact List.mem_append_left _ hmem
        · by_cases he : e.type = EvGoEnd
          · -- termination event: `destroy` written, then the owner update
            have hm2 : ∃ gE, lookupG m1 e.g = some gE ∧
                m2 = updateG m1 e.g (fun g0 => { g0 with destroy := e.ts }) := by
              unfold kindStep at hk
              rw [if_neg hc, if_pos he] at hk
              cases hl : lookupG m1 e.g with
              | none =>
                rw [hl] at hk
                simp at hk
              | some gE =>
                rw [hl] at hk
                exact ⟨gE, rfl, by simpa using hk.symm⟩
            obtain ⟨gE, hl, hm2⟩ := hm2
            subst hm2
            by_cases hid : e.g = id
            · rw [if_pos hid, lookupG_updateG, if_pos hid] at hg
              rw [hid] at hl
              rw [hid] at hg
              rw [hl] at hg
              have hgv : ownerF e { gE with destroy := e.ts } = g := by
                injection hg
              obtain ⟨hID, hmem, hs1, hs2, hs3, hs4⟩ := hinv id gE hl
              have hcr : isCreateOf id e = false := isCreateOf_type_ne id e hc
              rw [relevantRev_cons_owned id e es.reverse hcr hid]
              have hms := matches_step e gE (relevantRev id es.reverse) hs1 hs2 hs3 hs4
              rw [if_pos he] at hms
              refine ⟨?_, ?_, ?_, ?_, ?_, ?_⟩
              · rw [← hgv]
                exact hID
              · rw [createdIds_append, if_neg hc]
                exact List.mem_append_left _ hmem
              · rw [← hgv]; exact hms.1
              · rw [← hgv]; exact hms.2.1
              · rw [← hgv]; exact hms.2.2.1
              · rw [← hgv]; exact hms.2.2.2
            · rw [if_neg hid, lookupG_updateG, if_neg hid] at hg
              obtain ⟨hID, hmem, hs1, hs2, hs3, hs4⟩ := hinv id g hg
              have hcr : isCreateOf id e = false := isCreateOf_type_ne id e hc
              rw [relevantRev_cons_skip id e es.reverse hcr hid]
              refine ⟨hID, ?_, hs1, hs2, hs3, hs4⟩
              rw [createdIds_append, if_neg hc]
              exact List.mem_append_left _ hmem
          · -- any other event kind: only the owner update runs
            have hm2 : m2 = m1 := by
              unfold kindStep at hk
              rw [if_neg hc, if_neg he] at hk
              simpa using hk.symm
            subst hm2
            by_cases hid : e.g = id
            · rw [if_pos hid] at hg
              cases hl : lookupG m2 id with
              | none =>
                rw [hl] at hg
                simp at hg
              | some gOld =>
                rw [hl] at hg
                have hgv : ownerF e gOld = g := by
                  injection hg
                obtain ⟨hID, hmem, hs1, hs2, hs3, hs4⟩ := hinv id gOld hl
                have hcr : isCreateOf id e = false := isCreateOf_type_ne id e hc
                rw [relevantRev_cons_owned id e es.reverse hcr hid]
                have hms := matches_step e gOld (relevantRev id es.reverse) hs1 hs2 hs3 hs4
                rw [if_neg he] at hms
                refine ⟨?_, ?_, ?_, ?_, ?_, ?_⟩
                · rw [← hgv]
                  exact hID
                · rw [createdIds_append, if_neg hc]
                  exact List.mem_append_left _ hmem
                · rw [← hgv]; exact hms.1
                · rw [← hgv]; exact hms.2.1
                · rw [← hgv]; exact hms.2.2.1
                · rw [← hgv]; exact hms.2.2.2
            · rw [if_neg hid] at hg
              obtain ⟨hID, hmem, hs1, hs2, hs3, hs4⟩ := hinv id g hg
              have hcr : isCreateOf id e = false := isCreateOf_type_ne id e hc
              rw [relevantRev_cons_skip id e es.reverse hcr hid]
              refine ⟨hID, ?_, hs1, hs2, hs3, hs4⟩
              rw [createdIds_append, if_neg hc]
              exact List.mem_append_left _ hmem

/-! Key-set lemmas: the maps built by the program always have unique keys. -/

theorem lookupG_eq_none (m : GMap) (k : Nat) (h : ¬ k ∈ m.map Prod.fst) :
    lookupG m k = none := by
  induction m with
  | nil => rfl
  | cons p t ih =>
    obtain ⟨k0, g0⟩ := p
    simp only [List.map_cons, List.mem_cons] at h
    push_neg at h
    have h1 : ¬ k0 = k := fun hh => h.1 hh.symm
    simp [lookupG, h1, ih h.2]

theorem keys_insertG (m : GMap) (k : Nat) (g : Goroutine) :
    (insertG m k g).map Prod.fst =
      if k ∈ m.map Prod.fst then m.map Prod.fst else m.map Prod.fst ++ [k] := by
  induction m with
  | nil => simp [insertG]
  | cons p t ih =>
    obtain ⟨k0, g0⟩ := p
    by_cases h : k0 = k
    · subst h
      simp [insertG]
    · have h2 : ¬ k = k0 := fun hh => h hh.symm
      by_cases h3 : k ∈ t.map Prod.fst
      · simp [insertG, h, h2, h3, ih]
      · simp [insertG, h, h2, h3, ih]

theorem keys_updateG (m : GMap) (k : Nat) (f : Goroutine → Goroutine) :
    (updateG m k f).map Prod.fst = m.map Prod.fst := by
  induction m with
  | nil => rfl
  | cons p t ih =>
    obtain ⟨k0, g0⟩ := p
    by_cases h : k0 = k <;> simp [updateG, h, ih]

theorem keys_applyOwner (m : GMap) (ev : Event) :
    (applyOwner m ev).map Prod.fst = m.map Prod.fst := by
  unfold applyOwner
  cases h : lookupG m ev.g
  · rfl
  · rw [keys_updateG]

theorem keysNodup_insertG (m : GMap) (k : Nat) (g : Goroutine)
    (h : (m.map Prod.fst).Nodup) : ((insertG m k g).map Prod.fst).Nodup := by
  rw [keys_insertG]
  by_cases h2 : k ∈ m.map Prod.fst
  · rw [if_pos h2]
    exact h
  · rw [if_neg h2, List.nodup_append]
    refine ⟨h, List.nodup_singleton _, ?_⟩
    intro a ha hb
    rw [List.mem_singleton] at hb
    subst hb
    exact h2 ha

theorem keysNodup_step1 (m : GMap) (e : Event) (m' : GMap)
    (h : step1 m e = some m') (hn : (m.map Prod.fst).Nodup) :
    (m'.map Prod.fst).Nodup := by
  unfold step1 at h
  cases hk : kindStep m e with
  | none =>
    rw [hk] at h
    simp at h
  | some m2 =>
    rw [hk] at h
    have hm' : applyOwner m2 e = m' := by
      simpa using h
    subst hm'
    rw [keys_applyOwner]
    unfold kindStep at hk
    by_cases hc : e.type = EvGoCreate
    · rw [if_pos hc] at hk
      have : insertG m (e.args.headD 0) (freshG (e.args.headD 0) e.ts) = m2 := by
        simpa using hk
      rw [← this]
      exact keysNodup_insertG _ _ _ hn
    · rw [if_neg hc] at hk
      by_cases he : e.type = EvGoEnd
      · rw [if_pos he] at hk
        cases hl : lookupG m e.g with
        | none =>
          rw [hl] at hk
          simp at hk
        | some gE =>
          rw [hl] at hk
          have : updateG m e.g (fun g => { g with destroy := e.ts }) = m2 := by
            simpa using hk
          rw [← this, keys_updateG]
          exact hn
      · rw [if_neg he] at hk
        have : m = m2 := by
          simpa using hk
        rw [← this]
        exact hn

theorem keysNodup_pass1 (es : List Event) : ∀ (m0 m : GMap),
    (m0.map Prod.fst).Nodup → pass1 m0 es = some m → (m.map Prod.fst).Nodup := by
  induction es with
  | nil =>
    intro m0 m h hm
    have : m0 = m := by
      simpa [pass1] using hm
    subst this
    exact h
  | cons e t ih =>
    intro m0 m h hm
    unfold pass1 at hm
    cases hs : step1 m0 e with
    | none =>
      rw [hs] at hm
      simp at hm
    | some m1 =>
      rw [hs] at hm
      exact ih m1 m (keysNodup_step1 m0 e m1 hs h) hm

theorem keys_step2 (m : GMap) (e : Event) :
    (step2 m e).map Prod.fst = m.map Prod.fst := by
  unfold step2
  by_cases hc : e.type = EvGoCreate
  · rw [if_pos hc]
    split
    · rfl
    · split
      · rfl
      · rw [keys_updateG]
  · rw [if_neg hc]

theorem keys_pass2 (es : List Event) : ∀ m : GMap,
    (pass2 m es).map Prod.fst = m.map Prod.fst := by
  induction es with
  | nil => intro m; rfl
  | cons e t ih =>
    intro m
    have : pass2 m (e :: t) = pass2 (step2 m e) t := rfl
    rw [this, ih, keys_step2]

theorem keysNodup_events2gs (es : List Event) (m : GMap) (h : events2gs es = some m) :
    (m.map Prod.fst).Nodup := by
  unfold events2gs at h
  cases hp : pass1 [] es with
  | none =>
    rw [hp] at h
    simp at h
  | some m1 =>
    rw [hp] at h
    have hm : pass2 m1 es = m := by
      simpa using h
    rw [← hm, keys_pass2]
    exact keysNodup_pass1 es [] m1 (by simp) hp

/-! The unfinished filter seen through lookups. -/

theorem mem_keys_filter (m : GMap) (p : Nat × Goroutine → Bool) (k : Nat)
    (h : k ∈ (m.filter p).map Prod.fst) : k ∈ m.map Prod.fst := by
  obtain ⟨q, hq, hqk⟩ := List.mem_map.mp h
  exact List.mem_map.mpr ⟨q, (List.mem_filter.mp hq).1, hqk⟩

theorem lookupG_unfinished (m : GMap) (hk : (m.map Prod.fst).Nodup) (id : Nat)
    (g : Goroutine) (hg : lookupG m id = some g) :
    lookupG (unfinishedGs m) id = if g.destroy = 0 then some g else none := by
  induction m with
  | nil => simp [lookupG] at hg
  | cons p t ih =>
    obtain ⟨k0, g0⟩ := p
    rw [List.map_cons, List.nodup_cons] at hk
    by_cases h : k0 = id
    · subst h
      have hgv : g0 = g := by
        have : lookupG ((k0, g0) :: t) k0 = some g0 := by
          simp [lookupG]
        rw [this] at hg
        injection hg
      subst hgv
      unfold unfinishedGs
      rw [List.filter_cons]
      by_cases hd : g0.destroy = 0
      · have hb : ((k0, g0).2.destroy == 0) = true := by
          simp [hd]
        rw [hb, if_pos rfl, if_pos hd]
        simp [lookupG]
      · have hb : ((k0, g0).2.destroy == 0) = false := by
          simp [hd]
        rw [hb, if_neg hd]
        simp only [Bool.false_eq_true, if_false]
        apply lookupG_eq_none
        intro hmem
        exact hk.1 (mem_keys_filter t _ k0 hmem)
    · have hg2 : lookupG t id = some g := by
        have : lookupG ((k0, g0) :: t) id = lookupG t id := by
          simp [lookupG, h]
        rw [this] at hg
        exact hg
      unfold unfinishedGs
      rw [List.filter_cons]
      cases hb : ((k0, g0).2.destroy == 0) with
      | true =>
        rw [if_pos rfl]
        have : lookupG ((k0, g0) :: t.filter (fun p => p.2.destroy == 0)) id
            = lookupG (t.filter (fun p => p.2.destroy == 0)) id := by
          simp [lookupG, h]
        rw [this]
        exact ih hk.2 hg2
      | false =>
        simp only [Bool.false_eq_true, if_false]
        exact ih hk.2 hg2

/-! Characterization of the second (parent-linkage) pass. -/

theorem setParent_setParent (e e' : Event) (g : Goroutine) :
    setParent e (setParent e' g) = setParent e g := rfl

theorem lastLinkTo_nil (id : Nat) : lastLinkTo [] id = none := rfl

theorem lastLinkTo_append_pos (es : List Event) (e : Event) (id : Nat)
    (h : linksTo id e = true) : lastLinkTo (es ++ [e]) id = some e := by
  unfold lastLinkTo
  rw [List.filter_append, List.filter_cons, h]
  simp

theorem lastLinkTo_append_neg (es : List Event) (e : Event) (id : Nat)
    (h : linksTo id e = false) : lastLinkTo (es ++ [e]) id = lastLinkTo es id := by
  unfold lastLinkTo
  rw [List.filter_append, List.filter_cons, h]
  simp

theorem lookupG_pass2 (es : List Event) (m : GMap) (id : Nat) :
    lookupG (pass2 m es) id =
      match lastLinkTo es id with
      | none => lookupG m id
      | some e => (lookupG m id).map (setParent e) := by
  induction es using List.reverseRecOn with
  | nil => rfl
  | append_singleton es e ih =>
    rw [pass2_append]
    cases hb : linksTo id e with
    | false =>
      rw [lastLinkTo_append_neg es e id hb]
      have hstep : lookupG (step2 (pass2 m es) e) id = lookupG (pass2 m es) id := by
        unfold step2
        by_cases hc : e.type = EvGoCreate
        · rw [if_pos hc]
          cases hlnk : e.link with
          | none => rfl
          | some l =>
            have hlg : ¬ l.g = id := by
              unfold linksTo at hb
              rw [hlnk] at hb
              simp [hc] at hb
              exact hb
            show lookupG
              (match lookupG (pass2 m es) l.g with
                | none => pass2 m es
                | some _ => updateG (pass2 m es) l.g
                    (fun child => { child with ParentID := e.g, parentStack := e.stk })) id
              = lookupG (pass2 m es) id
            cases lookupG (pass2 m es) l.g with
            | none => rfl
            | some c =>
              rw [lookupG_updateG, if_neg hlg]
        · rw [if_neg hc]
      rw [hstep, ih]
    | true =>
      rw [lastLinkTo_append_pos es e id hb]
      have hparts : e.type = EvGoCreate ∧ ∃ l, e.link = some l ∧ l.g = id := by
        unfold linksTo at hb
        cases hlnk : e.link with
        | none =>
          rw [hlnk] at hb
          simp at hb
        | some l =>
          rw [hlnk] at hb
          simp at hb
          exact ⟨hb.1, l, rfl, hb.2⟩
      obtain ⟨htype, l, hlnk, hlg⟩ := hparts
      unfold step2
      rw [if_pos htype, hlnk]
      show lookupG
        (match lookupG (pass2 m es) l.g with
          | none => pass2 m es
          | some _ => updateG (pass2 m es) l.g
              (fun child => { child with ParentID := e.g, parentStack := e.stk })) id
        = (lookupG m id).map (setParent e)
      rw [hlg]
      cases hcur : lookupG (pass2 m es) id with
      | none =>
        show lookupG (pass2 m es) id = (lookupG m id).map (setParent e)
        have hmatch : (match lastLinkTo es id with
            | none => lookupG m id
            | some e2 => (lookupG m id).map (setParent e2)) = none := by
          rw [← ih]
          exact hcur
        have hmid : lookupG m id = none := by
          cases hll : lastLinkTo es id with
          | none =>
            rw [hll] at hmatch
            exact hmatch
          | some e2 =>
            rw [hll] at hmatch
            have hmap : (lookupG m id).map (setParent e2) = none := hmatch
            cases hm0 : lookupG m id with
            | none => rfl
            | some c0 =>
              rw [hm0] at hmap
              simp at hmap
        rw [hcur, hmid]
        rfl
      | some c =>
        show lookupG (updateG (pass2 m es) id
            (fun child => { child with ParentID := e.g, parentStack := e.stk })) id
          = (lookupG m id).map (setParent e)
        rw [lookupG_updateG, if_pos rfl, hcur]
        rw [ih] at hcur
        cases hll : lastLinkTo es id with
        | none =>
          rw [hll] at hcur
          have hmid : lookupG m id = some c := hcur
          rw [hmid]
          rfl
        | some e2 =>
          rw [hll] at hcur
          have hmap : (lookupG m id).map (setParent e2) = some c := hcur
          cases hm0 : lookupG m id with
          | none =>
            rw [hm0] at hmap
            simp at hmap
          | some c0 =>
            rw [hm0] at hmap
            have hc0 : setParent e2 c0 = c := by
              simpa using hmap
            rw [← hc0]
            rfl

/-- Lemma: `events2gs` succeeds exactly when the first pass does, and its result is
the second pass applied to the first pass's map. -/
theorem events2gs_split (es : List Event) (m : GMap) (h : events2gs es = some m) :
    ∃ m1, pass1 [] es = some m1 ∧ m = pass2 m1 es := by
  unfold events2gs at h
  cases hp : pass1 [] es with
  | none =>
    rw [hp] at h
    simp at h
  | some m1 =>
    rw [hp] at h
    exact ⟨m1, rfl, by simpa using h.symm⟩

/-- The full per-record characterization of `events2gs` for the fields the
second pass never touches. -/
theorem events2gs_fields (es : List Event) (m : GMap) (h : events2gs es = some m)
    (id : Nat) (g : Goroutine) (hg : lookupG m id = some g) :
    g.ID = id ∧ id ∈ createdIds es ∧
    g.lastState = relState (relevantRev id es.reverse) ∧
    g.lastStack = relStack (relevantRev id es.reverse) ∧
    g.name = relName (relevantRev id es.reverse) ∧
    g.destroy = relDestroy (relevantRev id es.reverse) := by
  obtain ⟨m1, hp, hm⟩ := events2gs_split es m h
  subst hm
  rw [lookupG_pass2] at hg
  cases hll : lastLinkTo es id with
  | none =>
    rw [hll] at hg
    exact inv_main es m1 hp id g hg
  | some e =>
    rw [hll] at hg
    cases hl1 : lookupG m1 id with
    | none =>
      rw [hl1] at hg
      simp at hg
    | some g1 =>
      rw [hl1] at hg
      have hgv : setParent e g1 = g := by
        injection hg
      obtain ⟨ha, hb, hc, hd, hf, hk⟩ := inv_main es m1 hp id g1 hl1
      rw [← hgv]
      exact ⟨ha, hb, hc, hd, hf, hk⟩

/-- Claim C3 (amended): an owner identifier appears in the reconstructed
mapping only if a creation event allocated it, and each record's `lastState`
and `lastStack` are the display name and stack of the chronologically last
event owned by that goroutine at or after its last creation event (empty
when it owns none). -/
theorem lastState_lastStack_of_created (es : List Event) (m : GMap)
    (h : events2gs es = some m) (id : Nat) (g : Goroutine)
    (hg : lookupG m id = some g) :
    id ∈ createdIds es ∧
    g.lastState = relState (relevantRev id es.reverse) ∧
    g.lastStack = relStack (relevantRev id es.reverse) := by
  obtain ⟨_, hb, hc, hd, _, _⟩ := events2gs_fields es m h id g hg
  exact ⟨hb, hc, hd⟩

/-- Witness for the amended C3 theorem at a concrete two-event input. -/
theorem lastState_lastStack_of_created_witness :
    (1 : Nat) ∈ createdIds c3wes ∧
    c3wg.lastState = relState (relevantRev 1 c3wes.reverse) ∧
    c3wg.lastStack = relStack (relevantRev 1 c3wes.reverse) :=
  lastState_lastStack_of_created c3wes c3wm rfl 1 c3wg rfl

/-- Claim C8 (amended): a record's `name` is the innermost function name of
the chronologically first event owned by the goroutine at or after its last
creation whose stack is non-empty and whose innermost frame has a non-empty
function name (so in particular, once set to a non-empty string it is never
overwritten); events owned before the creation event are skipped, and frames
with empty function names leave the name unset. -/
theorem name_first_good_stack_since_create (es : List Event) (m : GMap)
    (h : events2gs es = some m) (id : Nat) (g : Goroutine)
    (hg : lookupG m id = some g) :
    g.name = relName (relevantRev id es.reverse) :=
  (events2gs_fields es m h id g hg).2.2.2.2.1

/-- Witness for the amended C8 theorem at a concrete two-event input. -/
theorem name_first_good_stack_since_create_witness :
    c8wg.name = relName (relevantRev 2 c8wes.reverse) :=
  name_first_good_stack_since_create c8wes c8wm rfl 2 c8wg rfl

/-- Claim C5 (amended): for the chronologically last creation event linking
to a child present in the reconstructed mapping, the child's `ParentID` is
that event's owner and its `parentStack` that event's stack (earlier link
events to the same child are overwritten by the last one; a link to an
absent child is skipped and reconstruction still succeeds). -/
theorem parent_linkage_last_link (es : List Event) (m : GMap)
    (h : events2gs es = some m) (id : Nat) (e : Event)
    (hlast : lastLinkTo es id = some e) (c : Goroutine)
    (hc : lookupG m id = some c) :
    c.ParentID = e.g ∧ c.parentStack = e.stk := by
  obtain ⟨m1, hp, hm⟩ := events2gs_split es m h
  subst hm
  rw [lookupG_pass2, hlast] at hc
  cases hl1 : lookupG m1 id with
  | none =>
    rw [hl1] at hc
    simp at hc
  | some c1 =>
    rw [hl1] at hc
    have hcv : setParent e c1 = c := by
      injection hc
    rw [← hcv]
    exact ⟨rfl, rfl⟩

/-- Witness for the amended C5 theorem: one creation event links to
goroutine 1, whose reconstructed parent is that event's owner. -/
theorem parent_linkage_last_link_witness :
    lastLinkTo c5wes 1 = some c5e2 ∧
    c5wc.ParentID = c5e2.g ∧ c5wc.parentStack = c5e2.stk :=
  ⟨rfl, parent_linkage_last_link c5wes c5wm rfl 1 c5e2 rfl c5wc rfl⟩

/-! Membership lemmas for the relevant-event scan. -/

theorem relevantRev_subset (id : Nat) (r : List Event) (x : Event) :
    x ∈ relevantRev id r → x ∈ r := by
  induction r with
  | nil =>
    intro hx
    simp [relevantRev] at hx
  | cons e t ih =>
    intro hx
    by_cases hg : e.g = id
    · by_cases hc : isCreateOf id e = true
      · rw [relevantRev_cons_create_self id e t hc hg] at hx
        rw [List.mem_singleton] at hx
        subst hx
        exact List.mem_cons_self _ _
      · have hc2 : isCreateOf id e = false := by
          simpa using hc
        rw [relevantRev_cons_owned id e t hc2 hg] at hx
        rcases List.mem_cons.mp hx with h | h
        · subst h
          exact List.mem_cons_self _ _
        · exact List.mem_cons_of_mem _ (ih h)
    · by_cases hc : isCreateOf id e = true
      · rw [relevantRev_cons_create_other id e t hc hg] at hx
        simp at hx
      · have hc2 : isCreateOf id e = false := by
          simpa using hc
        rw [relevantRev_cons_skip id e t hc2 hg] at hx
        exact List.mem_cons_of_mem _ (ih hx)

theorem relevantRev_owner (id : Nat) (r : List Event) (x : Event) :
    x ∈ relevantRev id r → x.g = id := by
  induction r with
  | nil =>
    intro hx
    simp [relevantRev] at hx
  | cons e t ih =>
    intro hx
    by_cases hg : e.g = id
    · by_cases hc : isCreateOf id e = true
      · rw [relevantRev_cons_create_self id e t hc hg] at hx
        rw [List.mem_singleton] at hx
        subst hx
        exact hg
      · have hc2 : isCreateOf id e = false := by
          simpa using hc
        rw [relevantRev_cons_owned id e t hc2 hg] at hx
        rcases List.mem_cons.mp hx with h | h
        · subst h
          exact hg
        · exact ih h
    · by_cases hc : isCreateOf id e = true
      · rw [relevantRev_cons_create_other id e t hc hg] at hx
        simp at hx
      · have hc2 : isCreateOf id e = false := by
          simpa using hc
        rw [relevantRev_cons_skip id e t hc2 hg] at hx
        exact ih hx

theorem mem_relevantRev (id : Nat) (a b : List Event) (e : Event)
    (he : e.g = id) (ha : ∀ x, x ∈ a → isCreateOf id x = false) :
    e ∈ relevantRev id (a ++ e :: b) := by
  induction a with
  | nil =>
    by_cases hc : isCreateOf id e = true
    · rw [List.nil_append, relevantRev_cons_create_self id e b hc he]
      exact List.mem_singleton.mpr rfl
    · have hc2 : isCreateOf id e = false := by
        simpa using hc
      rw [List.nil_append, relevantRev_cons_owned id e b hc2 he]
      exact List.mem_cons_self _ _
  | cons x t ih =>
    have hx : isCreateOf id x = false := ha x (List.mem_cons_self _ _)
    have iht : e ∈ relevantRev id (t ++ e :: b) :=
      ih (fun y hy => ha y (List.mem_cons_of_mem _ hy))
    by_cases hg : x.g = id
    · rw [List.cons_append, relevantRev_cons_owned id x (t ++ e :: b) hx hg]
      exact List.mem_cons_of_mem _ iht
    · rw [List.cons_append, relevantRev_cons_skip id x (t ++ e :: b) hx hg]
      exact iht

theorem createdIds_cons (e : Event) (es : List Event) :
    createdIds (e :: es) =
      (if e.type = EvGoCreate then [e.args.headD 0] else []) ++ createdIds es := by
  unfold createdIds
  rw [List.filter_cons]
  by_cases h : e.type = EvGoCreate <;> simp [h]

theorem createdIds_append2 (l r : List Event) :
    createdIds (l ++ r) = createdIds l ++ createdIds r := by
  unfold createdIds
  rw [List.filter_append, List.map_append]

theorem createdIds_of_isCreateOf (id : Nat) (x : Event) (es : List Event)
    (hx : x ∈ es) (hc : isCreateOf id x = true) : id ∈ createdIds es := by
  unfold isCreateOf at hc
  rw [Bool.and_eq_true] at hc
  unfold createdIds
  refine List.mem_map.mpr ⟨x, List.mem_filter.mpr ⟨hx, hc.1⟩, ?_⟩
  simpa using hc.2

/-! Domain lemmas for the first pass. -/

theorem step1_domain (m : GMap) (e : Event) (m' : GMap) (h : step1 m e = some m')
    (id : Nat) (hd : (lookupG m' id).isSome) :
    (lookupG m id).isSome ∨ (e.type = EvGoCreate ∧ e.args.headD 0 = id) := by
  unfold step1 at h
  cases hk : kindStep m e with
  | none =>
    rw [hk] at h
    simp at h
  | some m2 =>
    rw [hk] at h
    have hm' : applyOwner m2 e = m' := by
      simpa using h
    subst hm'
    rw [lookupG_applyOwner] at hd
    have hd2 : (lookupG m2 id).isSome := by
      by_cases hg : e.g = id
      · rw [if_pos hg] at hd
        cases h2 : lookupG m2 id with
        | none =>
          rw [h2] at hd
          simp at hd
        | some _ => simp
      · rw [if_neg hg] at hd
        exact hd
    unfold kindStep at hk
    by_cases hc : e.type = EvGoCreate
    · rw [if_pos hc] at hk
      have hm2 : insertG m (e.args.headD 0) (freshG (e.args.headD 0) e.ts) = m2 := by
        simpa using hk
      rw [← hm2, lookupG_insertG] at hd2
      by_cases hai : e.args.headD 0 = id
      · exact Or.inr ⟨hc, hai⟩
      · rw [if_neg hai] at hd2
        exact Or.inl hd2
    · rw [if_neg hc] at hk
      by_cases he : e.type = EvGoEnd
      · rw [if_pos he] at hk
        cases hl : lookupG m e.g with
        | none =>
          rw [hl] at hk
          simp at hk
        | some gE =>
          rw [hl] at hk
          have hm2 : updateG m e.g (fun g => { g with destroy := e.ts }) = m2 := by
            simpa using hk
          rw [← hm2, lookupG_updateG] at hd2
          by_cases hg : e.g = id
          · left
            rw [← hg, hl]
            simp
          · rw [if_neg hg] at hd2
            exact Or.inl hd2
      · rw [if_neg he] at hk
        have hm2 : m = m2 := by
          simpa using hk
        rw [← hm2] at hd2
        exact Or.inl hd2

theorem step1_domain_mono (m : GMap) (e : Event) (m' : GMap) (h : step1 m e = some m')
    (id : Nat) (hd : (lookupG m id).isSome) : (lookupG m' id).isSome := by
  unfold step1 at h
  cases hk : kindStep m e with
  | none =>
    rw [hk] at h
    simp at h
  | some m2 =>
    rw [hk] at h
    have hm' : applyOwner m2 e = m' := by
      simpa using h
    subst hm'
    have hd2 : (lookupG m2 id).isSome := by
      unfold kindStep at hk
      by_cases hc : e.type = EvGoCreate
      · rw [if_pos hc] at hk
        have hm2 : insertG m (e.args.headD 0) (freshG (e.args.headD 0) e.ts) = m2 := by
          simpa using hk
        rw [← hm2, lookupG_insertG]
        by_cases hai : e.args.headD 0 = id
        · rw [if_pos hai]
          simp
        · rw [if_neg hai]
          exact hd
      · rw [if_neg hc] at hk
        by_cases he : e.type = EvGoEnd
        · rw [if_pos he] at hk
          cases hl : lookupG m e.g with
          | none =>
            rw [hl] at hk
            simp at hk
          | some gE =>
            rw [hl] at hk
            have hm2 : updateG m e.g (fun g => { g with destroy := e.ts }) = m2 := by
              simpa using hk
            rw [← hm2, lookupG_updateG]
            by_cases hg : e.g = id
            · rw [if_pos hg, hl]
              simp
            · rw [if_neg hg]
              exact hd
        · rw [if_neg he] at hk
          have hm2 : m = m2 := by
            simpa using hk
          rw [← hm2]
          exact hd
    rw [lookupG_applyOwner]
    by_cases hg : e.g = id
    · rw [if_pos hg]
      cases h2 : lookupG m2 id with
      | none =>
        rw [h2] at hd2
        simp at hd2
      | some _ => simp
    · rw [if_neg hg]
      exact hd2

theorem step1_create_domain (m : GMap) (e : Event) (m' : GMap) (h : step1 m e = some m')
    (hc : e.type = EvGoCreate) : (lookupG m' (e.args.headD 0)).isSome := by
  unfold step1 at h
  cases hk : kindStep m e with
  | none =>
    rw [hk] at h
    simp at h
  | some m2 =>
    rw [hk] at h
    have hm' : applyOwner m2 e = m' := by
      simpa using h
    subst hm'
    unfold kindStep at hk
    rw [if_pos hc] at hk
    have hm2 : insertG m (e.args.headD 0) (freshG (e.args.headD 0) e.ts) = m2 := by
      simpa using hk
    have hd2 : (lookupG m2 (e.args.headD 0)).isSome := by
      rw [← hm2, lookupG_insertG, if_pos rfl]
      simp
    rw [lookupG_applyOwner]
    by_cases hg : e.g = e.args.headD 0
    · rw [if_pos hg]
      cases h2 : lookupG m2 (e.args.headD 0) with
      | none =>
        rw [h2] at hd2
        simp at hd2
      | some _ => simp
    · rw [if_neg hg]
      exact hd2

/-- In any successful run of the first pass, every termination event's owner
was either already present initially or created by an earlier event. -/
theorem pass1_end_created (es : List Event) : ∀ (m0 m : GMap), pass1 m0 es = some m →
    ∀ (l : List Event) (e : Event) (r : List Event), es = l ++ e :: r →
    e.type = EvGoEnd → (lookupG m0 e.g).isSome ∨ e.g ∈ createdIds l := by
  induction es with
  | nil =>
    intro m0 m hm l e r heq _
    cases l <;> simp at heq
  | cons ev t ih =>
    intro m0 m hm l e r heq hend
    unfold pass1 at hm
    cases hs : step1 m0 ev with
    | none =>
      rw [hs] at hm
      simp at hm
    | some m1 =>
      rw [hs] at hm
      cases l with
      | nil =>
        simp only [List.nil_append, List.cons.injEq] at heq
        obtain ⟨h1, _⟩ := heq
        subst h1
        left
        unfold step1 at hs
        cases hk : kindStep m0 ev with
        | none =>
          rw [hk] at hs
          simp at hs
        | some m2 =>
          unfold kindStep at hk
          have hc : ¬ ev.type = EvGoCreate := by
            rw [hend]
            decide
          rw [if_neg hc, if_pos hend] at hk
          cases hl : lookupG m0 ev.g with
          | none =>
            rw [hl] at hk
            simp at hk
          | some gE => simp
      | cons x l2 =>
        simp only [List.cons_append, List.cons.injEq] at heq
        obtain ⟨h1, h2⟩ := heq
        subst h1
        cases ih m1 m hm l2 e r h2 hend with
        | inr hmem =>
          right
          rw [createdIds_cons]
          exact List.mem_append_right _ hmem
        | inl hsome =>
          cases step1_domain m0 ev m1 hs e.g hsome with
          | inl hh => exact Or.inl hh
          | inr hh =>
            right
            rw [createdIds_cons, if_pos hh.1]
            exact List.mem_append_left _ (List.mem_singleton.mpr hh.2.symm)

/-- Starting from the empty map, a successful first pass means every
termination event's owner was created strictly earlier in the input. -/
theorem end_owner_created_before (es : List Event) (m : GMap)
    (hp : pass1 [] es = some m) (l : List Event) (e : Event) (r : List Event)
    (heq : es = l ++ e :: r) (hend : e.type = EvGoEnd) : e.g ∈ createdIds l := by
  cases pass1_end_created es [] m hp l e r heq hend with
  | inl h => simp [lookupG] at h
  | inr h => exact h

/-- Every created identifier is in the domain of the first pass's result. -/
theorem pass1_created_dom (es : List Event) : ∀ (m0 m : GMap), pass1 m0 es = some m →
    ∀ id, (id ∈ createdIds es ∨ (lookupG m0 id).isSome) → (lookupG m id).isSome := by
  induction es with
  | nil =>
    intro m0 m hm id hid
    have hm0 : m0 = m := by
      simpa [pass1] using hm
    subst hm0
    cases hid with
    | inl h => simp [createdIds] at h
    | inr h => exact h
  | cons ev t ih =>
    intro m0 m hm id hid
    unfold pass1 at hm
    cases hs : step1 m0 ev with
    | none =>
      rw [hs] at hm
      simp at hm
    | some m1 =>
      rw [hs] at hm
      apply ih m1 m hm id
      cases hid with
      | inr hsome => exact Or.inr (step1_domain_mono m0 ev m1 hs id hsome)
      | inl hmem =>
        rw [createdIds_cons] at hmem
        rcases List.mem_append.mp hmem with hh | hh
        · right
          by_cases hc : ev.type = EvGoCreate
          · rw [if_pos hc] at hh
            have hai : ev.args.headD 0 = id := (List.mem_singleton.mp hh).symm
            rw [← hai]
            exact step1_create_domain m0 ev m1 hs hc
          · rw [if_neg hc] at hh
            simp at hh
        · exact Or.inl hh

/-- The second pass never removes a record. -/
theorem pass2_domain (es : List Event) (m : GMap) (id : Nat)
    (h : (lookupG m id).isSome) : (lookupG (pass2 m es) id).isSome := by
  rw [lookupG_pass2]
  cases lastLinkTo es id with
  | none => exact h
  | some e =>
    cases h2 : lookupG m id with
    | none =>
      rw [h2] at h
      simp at h
    | some _ => simp

/-- Claim C2 (amended): assuming every termination event carries a nonzero
timestamp and no goroutine identifier is created twice, a goroutine of the
reconstructed mapping is in the unfinished filter's output iff no
termination event for its identifier occurs in the input.  (Without these
assumptions the claim fails: a termination at timestamp 0 writes the
"unfinished" sentinel value, and a re-creation resets `destroy`.) -/
theorem unfinished_iff_no_termination (es : List Event) (m : GMap)
    (h : events2gs es = some m)
    (hts : ∀ e, e ∈ es → e.type = EvGoEnd → ¬ e.ts = 0)
    (hnd : (createdIds es).Nodup)
    (id : Nat) (g : Goroutine) (hg : lookupG m id = some g) :
    lookupG (unfinishedGs m) id = some g ↔
      ∀ e, e ∈ es → e.type = EvGoEnd → ¬ e.g = id := by
  have hkeys := keysNodup_events2gs es m h
  have hdes := (events2gs_fields es m h id g hg).2.2.2.2.2
  rw [lookupG_unfinished m hkeys id g hg]
  constructor
  · intro hunf
    have hd : g.destroy = 0 := by
      by_contra hd
      rw [if_neg hd] at hunf
      simp at hunf
    intro e he hend hgid
    obtain ⟨l, r, hsplit⟩ := List.append_of_mem he
    obtain ⟨m1, hp, _⟩ := events2gs_split es m h
    have hcl : e.g ∈ createdIds l := end_owner_created_before es m1 hp l e r hsplit hend
    have hnocr : ∀ x, x ∈ r → isCreateOf id x = false := by
      intro x hxr
      cases hcx : isCreateOf id x with
      | false => rfl
      | true =>
        exfalso
        have hidr : id ∈ createdIds r := createdIds_of_isCreateOf id x r hxr hcx
        have hidl : id ∈ createdIds l := by
          rw [← hgid]
          exact hcl
        rw [hsplit, createdIds_append2, createdIds_cons,
          if_neg (by rw [hend]; decide : ¬ e.type = EvGoCreate),
          List.nil_append, List.nodup_append] at hnd
        exact hnd.2.2 hidl hidr
    have hmem : e ∈ relevantRev id es.reverse := by
      have hrev : es.reverse = r.reverse ++ e :: l.reverse := by
        rw [hsplit]
        simp
      rw [hrev]
      exact mem_relevantRev id r.reverse l.reverse e hgid
        (fun x hx => hnocr x (List.mem_reverse.mp hx))
    cases hf : (relevantRev id es.reverse).filter (fun x => x.type == EvGoEnd) with
    | nil =>
      have : e ∈ ([] : List Event) := by
        rw [← hf]
        exact List.mem_filter.mpr ⟨hmem, by simp [hend]⟩
      simp at this
    | cons e0 t0 =>
      have hd0 : relDestroy (relevantRev id es.reverse) = e0.ts := by
        unfold relDestroy
        rw [hf]
    
      have he0 : e0 ∈ (relevantRev id es.reverse).filter (fun x => x.type == EvGoEnd) := by
        rw [hf]
        exact List.mem_cons_self _ _
      have he0mem : e0 ∈ es :=
        List.mem_reverse.mp (relevantRev_subset id es.reverse e0 (List.mem_filter.mp he0).1)
      have hne0 : ¬ e0.ts = 0 :=
        hts e0 he0mem (by simpa using (List.mem_filter.mp he0).2)
      rw [hdes, hd0] at hd
      exact hne0 hd
  · intro hno
    have hd : g.destroy = 0 := by
      rw [hdes]
      unfold relDestroy
      cases hf : (relevantRev id es.reverse).filter (fun x => x.type == EvGoEnd) with
      | nil => rfl
      | cons e0 t0 =>
        exfalso
        have he0 : e0 ∈ (relevantRev id es.reverse).filter (fun x => x.type == EvGoEnd) := by
          rw [hf]
          exact List.mem_cons_self _ _
        have h1 := (List.mem_filter.mp he0).1
        have h2 : e0.type = EvGoEnd := by
          simpa using (List.mem_filter.mp he0).2
        have h3 : e0.g = id := relevantRev_owner id es.reverse e0 h1
        have h4 : e0 ∈ es := List.mem_reverse.mp (relevantRev_subset id es.reverse e0 h1)
        exact hno e0 h4 h2 h3
    rw [if_pos hd]

/-- Witness for the amended C2 theorem at a concrete one-event input. -/
theorem unfinished_iff_no_termination_witness :
    lookupG (unfinishedGs c2wm) 1 = some (freshG 1 1) ↔
      ∀ e, e ∈ c2wes → e.type = EvGoEnd → ¬ e.g = 1 :=
  unfinished_iff_no_termination c2wes c2wm rfl (by decide) (by decide) 1 (freshG 1 1) rfl

/-! Sorting lemmas for `sortByLen` (the model of `sort.Sort(byLen(...))`). -/

theorem mem_insertByLen (g : List Goroutine) (l : List (List Goroutine)) (x : List Goroutine) :
    x ∈ insertByLen g l ↔ x = g ∨ x ∈ l := by
  induction l with
  | nil => simp [insertByLen]
  | cons h t ih =>
    unfold insertByLen
    by_cases hl : h.length < g.length
    · rw [if_pos hl]
      simp only [List.mem_cons]
    · rw [if_neg hl]
      simp only [List.mem_cons, ih]
      tauto

theorem mem_sortByLen (L : List (List Goroutine)) (x : List Goroutine) :
    x ∈ sortByLen L ↔ x ∈ L := by
  induction L with
  | nil => simp [sortByLen]
  | cons h t ih =>
    unfold sortByLen
    rw [mem_insertByLen]
    simp only [List.mem_cons, ih]

theorem pairwise_insertByLen (g : List Goroutine) (l : List (List Goroutine))
    (h : l.Pairwise (fun A B => B.length ≤ A.length)) :
    (insertByLen g l).Pairwise (fun A B => B.length ≤ A.length) := by
  induction l with
  | nil => simp [insertByLen]
  | cons h0 t ih =>
    rw [List.pairwise_cons] at h
    unfold insertByLen
    by_cases hl : h0.length < g.length
    · rw [if_pos hl, List.pairwise_cons]
      refine ⟨?_, ?_⟩
      · intro x hx
        rcases List.mem_cons.mp hx with h1 | h1
        · subst h1
          exact Nat.le_of_lt hl
        · exact Nat.le_trans (h.1 x h1) (Nat.le_of_lt hl)
      · rw [List.pairwise_cons]
        exact h
    · rw [if_neg hl, List.pairwise_cons]
      refine ⟨?_, ih h.2⟩
      intro x hx
      rcases (mem_insertByLen g t x).mp hx with h1 | h1
      · subst h1
        exact Nat.le_of_not_lt hl
      · exact h.1 x h1

theorem pairwise_sortByLen (L : List (List Goroutine)) :
    (sortByLen L).Pairwise (fun A B => B.length ≤ A.length) := by
  induction L with
  | nil => simp [sortByLen]
  | cons x t ih => exact pairwise_insertByLen x (sortByLen t) ih

/-! Lemmas about the hash-bucket accumulation of `uniq`. -/

theorem addG_sound (g : Goroutine) : ∀ (acc : List (String × List Goroutine)),
    (∀ k l, (k, l) ∈ acc → ∀ x, x ∈ l → gHash x = k) →
    ∀ k l, (k, l) ∈ addG g acc → ∀ x, x ∈ l → gHash x = k := by
  intro acc
  induction acc with
  | nil =>
    intro _ k l hkl x hx
    unfold addG at hkl
    rw [List.mem_singleton, Prod.mk.injEq] at hkl
    rw [hkl.2, List.mem_singleton] at hx
    subst hx
    exact hkl.1.symm
  | cons p t ih =>
    intro hs k l hkl x hx
    obtain ⟨k0, l0⟩ := p
    have hs0 : ∀ x, x ∈ l0 → gHash x = k0 := hs k0 l0 (List.mem_cons_self _ _)
    have hst : ∀ k l, (k, l) ∈ t → ∀ x, x ∈ l → gHash x = k :=
      fun k l hkl => hs k l (List.mem_cons_of_mem _ hkl)
    unfold addG at hkl
    by_cases hk0 : k0 = gHash g
    · rw [if_pos hk0] at hkl
      rcases List.mem_cons.mp hkl with h1 | h1
      · rw [Prod.mk.injEq] at h1
        obtain ⟨h2, h3⟩ := h1
        subst h2
        rw [h3] at hx
        rcases List.mem_append.mp hx with h4 | h4
        · exact hs0 x h4
        · rw [List.mem_singleton] at h4
          subst h4
          exact hk0.symm
      · exact hst k l h1 x hx
    · rw [if_neg hk0] at hkl
      rcases List.mem_cons.mp hkl with h1 | h1
      · rw [Prod.mk.injEq] at h1
        obtain ⟨h2, h3⟩ := h1
        subst h2
        rw [h3] at hx
        exact hs0 x hx
      · exact ih hst k l h1 x hx

theorem groupsFold_sound : ∀ (L : List Goroutine) (acc : List (String × List Goroutine)),
    (∀ k l, (k, l) ∈ acc → ∀ x, x ∈ l → gHash x = k) →
    ∀ k l, (k, l) ∈ groupsFold L acc → ∀ x, x ∈ l → gHash x = k := by
  intro L
  induction L with
  | nil =>
    intro acc hs
    exact hs
  | cons g t ih =>
    intro acc hs
    exact ih (addG g acc) (addG_sound g acc hs)

theorem addG_keys (g : Goroutine) : ∀ (acc : List (String × List Goroutine)),
    (addG g acc).map Prod.fst =
      if gHash g ∈ acc.map Prod.fst then acc.map Prod.fst
      else acc.map Prod.fst ++ [gHash g] := by
  intro acc
  induction acc with
  | nil => simp [addG]
  | cons p t ih =>
    obtain ⟨k0, l0⟩ := p
    by_cases hk0 : k0 = gHash g
    · subst hk0
      simp [addG]
    · have h2 : ¬ gHash g = k0 := fun hh => hk0 hh.symm
      by_cases h3 : gHash g ∈ t.map Prod.fst
      · simp [addG, hk0, h2, h3, ih]
      · simp [addG, hk0, h2, h3, ih]

theorem addG_keysNodup (g : Goroutine) (acc : List (String × List Goroutine))
    (h : (acc.map Prod.fst).Nodup) : ((addG g acc).map Prod.fst).Nodup := by
  rw [addG_keys]
  by_cases h2 : gHash g ∈ acc.map Prod.fst
  · rw [if_pos h2]
    exact h
  · rw [if_neg h2, List.nodup_append]
    refine ⟨h, List.nodup_singleton _, ?_⟩
    intro a ha hb
    rw [List.mem_singleton] at hb
    subst hb
    exact h2 ha

theorem groupsFold_keysNodup : ∀ (L : List Goroutine) (acc : List (String × List Goroutine)),
    (acc.map Prod.fst).Nodup → ((groupsFold L acc).map Prod.fst).Nodup := by
  intro L
  induction L with
  | nil =>
    intro acc h
    exact h
  | cons g t ih =>
    intro acc h
    exact ih (addG g acc) (addG_keysNodup g acc h)

theorem addG_mono (g : Goroutine) : ∀ (acc : List (String × List Goroutine))
    (k : String) (l : List Goroutine), (k, l) ∈ acc →
    ∃ l2, (k, l2) ∈ addG g acc ∧ ∀ x, x ∈ l → x ∈ l2 := by
  intro acc
  induction acc with
  | nil =>
    intro k l h
    simp at h
  | cons p t ih =>
    intro k l h
    obtain ⟨k0, l0⟩ := p
    unfold addG
    by_cases hk0 : k0 = gHash g
    · rw [if_pos hk0]
      rcases List.mem_cons.mp h with h1 | h1
      · rw [Prod.mk.injEq] at h1
        obtain ⟨h2, h3⟩ := h1
        subst h2
        subst h3
        exact ⟨l ++ [g], List.mem_cons_self _ _, fun x hx => List.mem_append_left _ hx⟩
      · exact ⟨l, List.mem_cons_of_mem _ h1, fun x hx => hx⟩
    · rw [if_neg hk0]
      rcases List.mem_cons.mp h with h1 | h1
      · rw [Prod.mk.injEq] at h1
        obtain ⟨h2, h3⟩ := h1
        subst h2
        subst h3
        exact ⟨l, List.mem_cons_self _ _, fun x hx => hx⟩
      · obtain ⟨l2, hl2, hsub⟩ := ih k l h1
        exact ⟨l2, List.mem_cons_of_mem _ hl2, hsub⟩

theorem addG_self (g : Goroutine) : ∀ (acc : List (String × List Goroutine)),
    ∃ l, (gHash g, l) ∈ addG g acc ∧ g ∈ l := by
  intro acc
  induction acc with
  | nil => exact ⟨[g], List.mem_singleton.mpr rfl, List.mem_singleton.mpr rfl⟩
  | cons p t ih =>
    obtain ⟨k0, l0⟩ := p
    unfold addG
    by_cases hk0 : k0 = gHash g
    · subst hk0
      rw [if_pos rfl]
      exact ⟨l0 ++ [g], List.mem_cons_self _ _,
        List.mem_append_right _ (List.mem_singleton.mpr rfl)⟩
    · rw [if_neg hk0]
      obtain ⟨l, hl, hg⟩ := ih
      exact ⟨l, List.mem_cons_of_mem _ hl, hg⟩

theorem groupsFold_presence : ∀ (L : List Goroutine) (acc : List (String × List Goroutine))
    (g : Goroutine), (g ∈ L ∨ ∃ l, (gHash g, l) ∈ acc ∧ g ∈ l) →
    ∃ l, (gHash g, l) ∈ groupsFold L acc ∧ g ∈ l := by
  intro L
  induction L with
  | nil =>
    intro acc g h
    cases h with
    | inl h => simp at h
    | inr h => exact h
  | cons x t ih =>
    intro acc g h
    show ∃ l, (gHash g, l) ∈ groupsFold t (addG x acc) ∧ g ∈ l
    apply ih (addG x acc) g
    cases h with
    | inl h =>
      rcases List.mem_cons.mp h with h1 | h1
      · subst h1
        exact Or.inr (addG_self g acc)
      · exact Or.inl h1
    | inr h =>
      obtain ⟨l, hl, hg⟩ := h
      obtain ⟨l2, hl2, hsub⟩ := addG_mono x acc (gHash g) l hl
      exact Or.inr ⟨l2, hl2, hsub g hg⟩

theorem assoc_unique : ∀ (acc : List (String × List Goroutine)),
    (acc.map Prod.fst).Nodup → ∀ (k : String) (l1 l2 : List Goroutine),
    (k, l1) ∈ acc → (k, l2) ∈ acc → l1 = l2 := by
  intro acc
  induction acc with
  | nil =>
    intro _ k l1 l2 h1 _
    simp at h1
  | cons p t ih =>
    intro hnd k l1 l2 h1 h2
    obtain ⟨k0, l0⟩ := p
    rw [List.map_cons, List.nodup_cons] at hnd
    rcases List.mem_cons.mp h1 with ha | ha <;> rcases List.mem_cons.mp h2 with hb | hb
    · rw [Prod.mk.injEq] at ha hb
      rw [ha.2, hb.2]
    · rw [Prod.mk.injEq] at ha
      exfalso
      apply hnd.1
      rw [← ha.1]
      exact List.mem_map.mpr ⟨(k, l2), hb, rfl⟩
    · rw [Prod.mk.injEq] at hb
      exfalso
      apply hnd.1
      rw [← hb.1]
      exact List.mem_map.mpr ⟨(k, l1), ha, rfl⟩
    · exact ih hnd.2 k l1 l2 ha hb

theorem addG_vals (g : Goroutine) : ∀ (acc : List (String × List Goroutine))
    (k : String) (l : List Goroutine), (k, l) ∈ addG g acc → ∀ x, x ∈ l →
    x = g ∨ ∃ k0 l0, (k0, l0) ∈ acc ∧ x ∈ l0 := by
  intro acc
  induction acc with
  | nil =>
    intro k l h x hx
    unfold addG at h
    rw [List.mem_singleton, Prod.mk.injEq] at h
    rw [h.2, List.mem_singleton] at hx
    exact Or.inl hx
  | cons p t ih =>
    intro k l h x hx
    obtain ⟨k0, l0⟩ := p
    unfold addG at h
    by_cases hk0 : k0 = gHash g
    · rw [if_pos hk0] at h
      rcases List.mem_cons.mp h with h1 | h1
      · rw [Prod.mk.injEq] at h1
        rw [h1.2] at hx
        rcases List.mem_append.mp hx with h2 | h2
        · exact Or.inr ⟨k0, l0, List.mem_cons_self _ _, h2⟩
        · rw [List.mem_singleton] at h2
          exact Or.inl h2
      · exact Or.inr ⟨k, l, List.mem_cons_of_mem _ h1, hx⟩
    · rw [if_neg hk0] at h
      rcases List.mem_cons.mp h with h1 | h1
      · rw [Prod.mk.injEq] at h1
        rw [h1.2] at hx
        exact Or.inr ⟨k0, l0, List.mem_cons_self _ _, hx⟩
      · rcases ih k l h1 x hx with h2 | h2
        · exact Or.inl h2
        · obtain ⟨k1, l1, hk1, hx1⟩ := h2
          exact Or.inr ⟨k1, l1, List.mem_cons_of_mem _ hk1, hx1⟩

theorem groupsFold_vals : ∀ (L : List Goroutine) (acc : List (String × List Goroutine))
    (k : String) (l : List Goroutine), (k, l) ∈ groupsFold L acc → ∀ x, x ∈ l →
    x ∈ L ∨ ∃ k0 l0, (k0, l0) ∈ acc ∧ x ∈ l0 := by
  intro L
  induction L with
  | nil =>
    intro acc k l h x hx
    exact Or.inr ⟨k, l, h, hx⟩
  | cons g t ih =>
    intro acc k l h x hx
    rcases ih (addG g acc) k l h x hx with h1 | h1
    · exact Or.inl (List.mem_cons_of_mem _ h1)
    · obtain ⟨k0, l0, hk0, hx0⟩ := h1
      rcases addG_vals g acc k0 l0 hk0 x hx0 with h2 | h2
      · exact Or.inl (h2 ▸ List.mem_cons_self _ _)
      · exact Or.inr h2

/-- Two goroutines of the input with the same fingerprint always land in a
common group of `uniq`. -/
theorem same_group_of_hash_eq (gs : GMap) (a b : Goroutine)
    (ha : a ∈ gVals gs) (hb : b ∈ gVals gs) (hh : gHash a = gHash b) :
    ∃ grp, grp ∈ uniq gs ∧ a ∈ grp ∧ b ∈ grp := by
  obtain ⟨la, hla, hain⟩ := groupsFold_presence (gVals gs) [] a (Or.inl ha)
  obtain ⟨lb, hlb, hbin⟩ := groupsFold_presence (gVals gs) [] b (Or.inl hb)
  have hnd : ((groupsFold (gVals gs) []).map Prod.fst).Nodup :=
    groupsFold_keysNodup (gVals gs) [] (by simp)
  rw [hh] at hla
  have heq : la = lb := assoc_unique (groupsFold (gVals gs) []) hnd (gHash b) la lb hla hlb
  subst heq
  refine ⟨la, ?_, hain, hbin⟩
  unfold uniq
  rw [mem_sortByLen]
  exact List.mem_map.mpr ⟨(gHash b, la), hla, rfl⟩

/-- Claim C4 (amended): two goroutines of the grouper's input are in the
same group iff the concatenations `name ++ lastState ++ render(lastStack)`
are equal.  (The code hashes the concatenation with no separator, so the
fingerprint is the concatenation, not the triple; distinct triples with
equal concatenations share a group.) -/
theorem same_group_iff_fingerprint (gs : GMap) (a b : Goroutine)
    (ha : a ∈ gVals gs) (hb : b ∈ gVals gs) :
    (∃ grp, grp ∈ uniq gs ∧ a ∈ grp ∧ b ∈ grp) ↔ gHash a = gHash b := by
  constructor
  · intro hsame
    obtain ⟨grp, hgrp, hag, hbg⟩ := hsame
    unfold uniq at hgrp
    rw [mem_sortByLen] at hgrp
    obtain ⟨p, hp, hpeq⟩ := List.mem_map.mp hgrp
    rw [← hpeq] at hag hbg
    have hsound := groupsFold_sound (gVals gs) [] (by intro k l hh; simp at hh) p.1 p.2 hp
    rw [hsound a hag, hsound b hbg]
  · exact same_group_of_hash_eq gs a b ha hb

/-- Witness for the amended C4 theorem at a concrete two-entry map. -/
theorem same_group_iff_fingerprint_witness :
    (∃ grp, grp ∈ uniq c4gs ∧ c4a ∈ grp ∧ c4b ∈ grp) ↔ gHash c4a = gHash c4b :=
  same_group_iff_fingerprint c4gs c4a c4b (by decide) (by decide)

/-- Claim C6: the group sequence returned by `uniq` is sorted by descending
cardinality: every adjacent pair satisfies `len(G[i]) >= len(G[i+1])`. -/
theorem groups_sorted_by_descending_size (gs : GMap) (i : Nat)
    (h : i + 1 < (uniq gs).length) :
    ((uniq gs).get ⟨i + 1, h⟩).length ≤
      ((uniq gs).get ⟨i, Nat.lt_of_succ_lt h⟩).length := by
  have hp : (uniq gs).Pairwise (fun A B => B.length ≤ A.length) := pairwise_sortByLen _
  exact List.pairwise_iff_get.mp hp ⟨i, Nat.lt_of_succ_lt h⟩ ⟨i + 1, h⟩ (Nat.lt_succ_self i)

/-- Witness for the C6 theorem at a concrete input with two groups of sizes
2 and 1. -/
theorem groups_sorted_by_descending_size_witness :
    ((uniq c6gs).get ⟨1, by decide⟩).length ≤ ((uniq c6gs).get ⟨0, by decide⟩).length :=
  groups_sorted_by_descending_size c6gs 0 (by decide)

/-- Claim C9: the unfinished filter and the grouper are read-only consumers:
every entry of `unfinishedGs gs` is literally an entry of `gs`, and every
goroutine of every group of `uniq gs` is literally a value of `gs` — no
record is modified. -/
theorem filter_grouper_readonly (gs : GMap) :
    (∀ p, p ∈ unfinishedGs gs → p ∈ gs) ∧
    (∀ grp, grp ∈ uniq gs → ∀ g, g ∈ grp → g ∈ gVals gs) := by
  constructor
  · intro p hp
    exact (List.mem_filter.mp hp).1
  · intro grp hgrp g hg
    unfold uniq at hgrp
    rw [mem_sortByLen] at hgrp
    obtain ⟨p, hp, hpeq⟩ := List.mem_map.mp hgrp
    rw [← hpeq] at hg
    rcases groupsFold_vals (gVals gs) [] p.1 p.2 hp g hg with h | h
    · exact h
    · obtain ⟨k0, l0, hk0, _⟩ := h
      simp at hk0

/-- Witness for the C9 theorem at a concrete one-entry map. -/
theorem filter_grouper_readonly_witness :
    ((1 : Nat), c9g) ∈ c9gs ∧ c9g ∈ gVals c9gs :=
  ⟨(filter_grouper_readonly c9gs).1 (1, c9g) (by decide),
   (filter_grouper_readonly c9gs).2 [c9g] (by decide) c9g (by decide)⟩

/-- A successful lookup yields a value of the map. -/
theorem lookupG_mem (m : GMap) (id : Nat) (g : Goroutine)
    (h : lookupG m id = some g) : g ∈ gVals m := by
  induction m with
  | nil => simp [lookupG] at h
  | cons p t ih =>
    obtain ⟨k0, g0⟩ := p
    by_cases hk : k0 = id
    · have hv : g0 = g := by
        have h2 : lookupG ((k0, g0) :: t) id = some g0 := by
          simp [lookupG, hk]
        rw [h2] at h
        injection h
      rw [← hv]
      exact List.mem_cons_self _ _
    · have h2 : lookupG t id = some g := by
        have h3 : lookupG ((k0, g0) :: t) id = lookupG t id := by
          simp [lookupG, hk]
        rw [h3] at h
        exact h
      exact List.mem_cons_of_mem _ (ih h2)

/-- Claim C10: a goroutine that is created but owns no event at or after its
last creation ends reconstruction with empty name, empty lastState, empty
lastStack and zero destroy; consequently any two such goroutines are
unfinished and placed in a single common group by the grouper. -/
theorem never_scheduled_single_group (es : List Event) (m : GMap)
    (h : events2gs es = some m) (id1 id2 : Nat)
    (h1c : id1 ∈ createdIds es) (h1r : relevantRev id1 es.reverse = [])
    (h2c : id2 ∈ createdIds es) (h2r : relevantRev id2 es.reverse = []) :
    ∃ g1 g2, lookupG m id1 = some g1 ∧ lookupG m id2 = some g2 ∧
      g1.name = "" ∧ g1.lastState = "" ∧ g1.lastStack = [] ∧ g1.destroy = 0 ∧
      ∃ grp, grp ∈ uniq (unfinishedGs m) ∧ g1 ∈ grp ∧ g2 ∈ grp := by
  obtain ⟨m1, hp, hm⟩ := events2gs_split es m h
  have hd1 : (lookupG m id1).isSome := by
    rw [hm]
    exact pass2_domain es m1 id1 (pass1_created_dom es [] m1 hp id1 (Or.inl h1c))
  have hd2 : (lookupG m id2).isSome := by
    rw [hm]
    exact pass2_domain es m1 id2 (pass1_created_dom es [] m1 hp id2 (Or.inl h2c))
  cases hg1 : lookupG m id1 with
  | none =>
    rw [hg1] at hd1
    simp at hd1
  | some g1 =>
  cases hg2 : lookupG m id2 with
  | none =>
    rw [hg2] at hd2
    simp at hd2
  | some g2 =>
  obtain ⟨_, _, hs1, hs2, hs3, hs4⟩ := events2gs_fields es m h id1 g1 hg1
  obtain ⟨_, _, ht1, ht2, ht3, ht4⟩ := events2gs_fields es m h id2 g2 hg2
  rw [h1r] at hs1 hs2 hs3 hs4
  rw [h2r] at ht1 ht2 ht3 ht4
  have he1a : g1.name = "" := hs3
  have he1b : g1.lastState = "" := hs1
  have he1c : g1.lastStack = [] := hs2
  have he1d : g1.destroy = 0 := hs4
  have he2a : g2.name = "" := ht3
  have he2b : g2.lastState = "" := ht1
  have he2c : g2.lastStack = [] := ht2
  have he2d : g2.destroy = 0 := ht4
  have hkeys := keysNodup_events2gs es m h
  have hu1 : lookupG (unfinishedGs m) id1 = some g1 := by
    rw [lookupG_unfinished m hkeys id1 g1 hg1, if_pos he1d]
  have hu2 : lookupG (unfinishedGs m) id2 = some g2 := by
    rw [lookupG_unfinished m hkeys id2 g2 hg2, if_pos he2d]
  have hv1 : g1 ∈ gVals (unfinishedGs m) := lookupG_mem _ _ _ hu1
  have hv2 : g2 ∈ gVals (unfinishedGs m) := lookupG_mem _ _ _ hu2
  have hh : gHash g1 = gHash g2 := by
    unfold gHash
    rw [he1a, he1b, he1c, he2a, he2b, he2c]
  exact ⟨g1, g2, rfl, rfl, he1a, he1b, he1c, he1d,
    same_group_of_hash_eq (unfinishedGs m) g1 g2 hv1 hv2 hh⟩

/-- Witness for the C10 theorem: two created, never-owning goroutines end up
with empty fields and share a group. -/
theorem never_scheduled_single_group_witness :
    ∃ g1 g2, lookupG c10m 1 = some g1 ∧ lookupG c10m 2 = some g2 ∧
      g1.name = "" ∧ g1.lastState = "" ∧ g1.lastStack = [] ∧ g1.destroy = 0 ∧
      ∃ grp, grp ∈ uniq (unfinishedGs c10m) ∧ g1 ∈ grp ∧ g2 ∈ grp :=
  never_scheduled_single_group c10es c10m rfl 1 2 (by decide) rfl (by decide) rfl
